import Mathlib

/-!
Verification development for the pairwise global sequence-alignment engine of
`CompareSequences.c`.  The C module is embedded shallowly: strings become
`List Char`, C `int` becomes `Int` (the design document puts integer-overflow
concerns out of scope of this core, so scores are modelled as unbounded
integers), the `Cell` struct becomes a Lean structure whose `sourceCell`
pointer is replaced by the coordinates of the source cell, and the imperative
row-major table fill becomes structural recursion over rows (each cell only
reads the cell to its left in the same row and the two cells above it, so the
row-by-row recursion computes exactly the values of the double loop in
`fillTable`).
-/

namespace CompareSequences

/-- `SPACE_CHAR` from the source: `#define SPACE_CHAR '-'`. -/
def SPACE_CHAR : Char := '-'

/-- The zero character the source uses for "no source" (`char sourceChar = 0`
in `setCell`, and the `0` passed to `initializeCell` by `initializeTable`). -/
def nullChar : Char := Char.ofNat 0

/-- The `MAX(X, Y)` macro: `(((X) > (Y)) ? (X) : (Y))`. -/
def MAX (x y : Int) : Int := if x > y then x else y

/-- The `TERNARY_MAX(X, Y, Z)` macro: `MAX(MAX(X, Y), Z)`. -/
def TERNARY_MAX (x y z : Int) : Int := MAX (MAX x y) z

/-- The `Cell` struct: a score, a source tag (`'L'`, `'A'`, `'D'`, or the zero
character for "none"), and the source cell, modelled by its
(row, column) coordinates instead of a raw pointer (`none` replaces `NULL`). -/
structure Cell where
  sourceCell : Option (Nat × Nat)
  sourceChar : Char
  score : Int
deriving DecidableEq

/-- The decision logic of `setCell`, given the three already-computed candidate
scores (`calByLeft`, `calByAbove`, `calByDiagonal`) and the coordinates of the
three neighbour cells.  It mirrors the source exactly: `max` is
`TERNARY_MAX(leftScore, aboveScore, diagonalScore)`; the `sourceCell` /
`sourceChar` locals start as `NULL` / `0` and are assigned by the
if / else-if chain that tests `diagonalScore` first, then `leftScore`,
then `aboveScore`; finally `initializeCell` stores the pair with score `max`. -/
def setCell (leftScore aboveScore diagonalScore : Int)
    (diagCell leftCell aboveCell : Nat × Nat) : Cell :=
  let mx := TERNARY_MAX leftScore aboveScore diagonalScore
  let src : Option (Nat × Nat) × Char :=
    if mx = diagonalScore then (some diagCell, 'D')
    else if mx = leftScore then (some leftCell, 'L')
    else if mx = aboveScore then (some aboveCell, 'A')
    else (none, nullChar)
  { sourceCell := src.1, sourceChar := src.2, score := mx }

/-- Row 0 of the table as written by `initializeTable`:
`initializeCell(&table[0][0], NULL, 0, 0)` and, for `c = 1 .. cols-1`,
`initializeCell(&table[0][c], NULL, 0, (int)c * g)`. -/
def row0 (g : Int) : Nat → Cell
  | 0 => { sourceCell := none, sourceChar := nullChar, score := 0 }
  | c + 1 => { sourceCell := none, sourceChar := nullChar, score := ((c : Int) + 1) * g }

/-- Row `r + 1` of the table, given row `r` (`rowAbove`).  Column 0 is written
by `initializeTable` (`initializeCell(&table[r][0], NULL, 0, (int)r * g)`);
column `c + 1` is written by `setCell(table, r+1, c+1, …)`, whose candidate
scores read `table[r+1][c]` (`calByLeft`), `table[r][c+1]` (`calByAbove`) and
`table[r][c]` plus the match / mismatch comparison of `seq1Val[r]` with
`seq2Val[c]` (`calByDiagonal`). -/
def fillRow (seq1Val seq2Val : List Char) (m s g : Int) (r : Nat)
    (rowAbove : Nat → Cell) : Nat → Cell
  | 0 => { sourceCell := none, sourceChar := nullChar, score := ((r : Int) + 1) * g }
  | c + 1 =>
    setCell ((fillRow seq1Val seq2Val m s g r rowAbove c).score + g)
            ((rowAbove (c + 1)).score + g)
            ((rowAbove c).score +
              (if seq1Val.getD r nullChar = seq2Val.getD c nullChar then m else s))
            (r, c) (r + 1, c) (r, c + 1)

/-- The completed score table of `fillTable` (after `initializeTable` and the
double loop of `setCell` calls), as a function from (row, column) to `Cell`.
The imperative fill is row-major and each interior cell depends only on the
previous row and on the cell to its left in the current row, so this
row-by-row recursion yields exactly the final contents of `table`. -/
def fillTable (seq1Val seq2Val : List Char) (m s g : Int) : Nat → Nat → Cell
  | 0 => row0 g
  | r + 1 => fillRow seq1Val seq2Val m s g r (fillTable seq1Val seq2Val m s g r)

/-- The score read out by `compareSequences`:
`getScore(&table[rows - 1][cols - 1])` with `rows = len1 + 1`,
`cols = len2 + 1`; this is the value passed to `printScore`. -/
def compareScore (seq1Val seq2Val : List Char) (m s g : Int) : Int :=
  (fillTable seq1Val seq2Val m s g seq1Val.length seq2Val.length).score

/-- `analyzeSourceChar`: given the current cell's source tag and the current
indices `i`, `j` into the two sequence strings, it returns the characters
written into the freshly allocated output buffers (empty when the tag is none
of `'D'`, `'L'`, `'A'`, matching the branchless fall-through that writes
nothing) together with the updated indices.  The C indices are `size_t` and
may wrap below zero; along any source chain a wrapped index is never read
again (the next cell is then in row or column 0 and has the zero tag), so
truncated `Nat` subtraction is an equivalent model of every read. -/
def analyzeSourceChar (sourceChar : Char) (seq1Val seq2Val : List Char)
    (i j : Nat) : List Char × List Char × Nat × Nat :=
  if sourceChar = 'D' then
    ([seq1Val.getD i nullChar], [seq2Val.getD j nullChar], i - 1, j - 1)
  else if sourceChar = 'L' then
    ([SPACE_CHAR], [seq2Val.getD j nullChar], i, j - 1)
  else if sourceChar = 'A' then
    ([seq1Val.getD i nullChar], [SPACE_CHAR], i - 1, j)
  else ([], [], i, j)

/-- The `while (currCell != NULL)` loop of `calAlignment`, at table position
(`r`, `c`) with string indices `i`, `j`.  Each iteration prepends the
characters produced by `analyzeSourceChar` for the current cell to the strings
accumulated so far and follows the cell's source link; the loop ends after
processing a cell whose source is `NULL`.  `fuel` bounds the number of
iterations; every source link strictly decreases `r + c`
(`sourceCell_decreases` below), so any fuel above the starting `r + c` makes
the recursion exhaust the source chain exactly as the C loop does. -/
def calAlignmentLoop (seq1Val seq2Val : List Char) (m s g : Int) :
    Nat → Nat → Nat → Nat → Nat → List Char × List Char
  | 0, _, _, _, _ => ([], [])
  | fuel + 1, r, c, i, j =>
    let step := analyzeSourceChar (fillTable seq1Val seq2Val m s g r c).sourceChar
                  seq1Val seq2Val i j
    match (fillTable seq1Val seq2Val m s g r c).sourceCell with
    | none => (step.1, step.2.1)
    | some (r2, c2) =>
      let rest := calAlignmentLoop seq1Val seq2Val m s g fuel r2 c2 step.2.2.1 step.2.2.2
      (rest.1 ++ step.1, rest.2 ++ step.2.1)

/-- `calAlignment`: the backtrace starts at `table[rows - 1][cols - 1]` with
`i = getSeqLen(seq1) - 1` and `j = getSeqLen(seq2) - 1`, and the pair of
output strings is accumulated by the loop above. -/
def calAlignment (seq1Val seq2Val : List Char) (m s g : Int) :
    List Char × List Char :=
  calAlignmentLoop seq1Val seq2Val m s g
    (seq1Val.length + seq2Val.length + 1)
    seq1Val.length seq2Val.length
    (seq1Val.length - 1) (seq2Val.length - 1)

/-- The `Sequence` struct (the `next` link is irrelevant to the claims and
omitted): a name, a value string (`none` replaces `NULL`), and the tracked
length field `seqLen`. -/
structure Sequence where
  seqName : Option (List Char)
  seqVal : Option (List Char)
  seqLen : Nat
deriving DecidableEq

/-- `initializeSeq`: the source assigns `seqName = NULL`, assigns `seqVal`
twice (`NULL` and then `0`, line 76), and never assigns `seqLen`, which
therefore keeps whatever value the freshly `malloc`ed memory held; that
indeterminate value is the parameter `garbageLen`. -/
def initializeSeq (garbageLen : Nat) : Sequence :=
  { seqName := none, seqVal := none, seqLen := garbageLen }

/-- `setSeqLen`: `seq->seqLen += len`. -/
def setSeqLen (seq : Sequence) (len : Nat) : Sequence :=
  { seq with seqLen := seq.seqLen + len }

/-- `setSeqVal`: when `seqVal` is `NULL` the value is copied fresh, otherwise
the new characters are copied at offset `strlen(seqVal)` (an append); in both
cases `setSeqLen(seq, strlen(val))` is called. -/
def setSeqVal (seq : Sequence) (val : List Char) : Sequence :=
  match seq.seqVal with
  | none => setSeqLen { seq with seqVal := some val } val.length
  | some old => setSeqLen { seq with seqVal := some (old ++ val) } val.length

/-!
The specification side for claim C1: a global alignment of the two sequences
is a sequence of columns, each either consuming one character of both
sequences (`diag`), one character of the second sequence against a gap
(`left`), or one character of the first sequence against a gap (`above`);
its score is the sum of the per-column match / mismatch / gap contributions.
The move list is stored with the rightmost alignment column first, so that
the indices consumed by the tail are the indices of the head's characters. -/

/-- One column of a global alignment. -/
inductive Move
  | diag
  | left
  | above
deriving DecidableEq

/-- Number of characters of the first sequence consumed by an alignment. -/
def movesRows : List Move → Nat
  | [] => 0
  | Move.diag :: rest => movesRows rest + 1
  | Move.above :: rest => movesRows rest + 1
  | Move.left :: rest => movesRows rest

/-- Number of characters of the second sequence consumed by an alignment. -/
def movesCols : List Move → Nat
  | [] => 0
  | Move.diag :: rest => movesCols rest + 1
  | Move.left :: rest => movesCols rest + 1
  | Move.above :: rest => movesCols rest

/-- The score of a global alignment under match `m`, mismatch `s`, gap `g`:
every gap column contributes `g`, and a diagonal column aligning
`seq1Val[i]` with `seq2Val[j]` contributes `m` when the characters are
equal and `s` otherwise. -/
def movesScore (seq1Val seq2Val : List Char) (m s g : Int) : List Move → Int
  | [] => 0
  | Move.diag :: rest =>
    movesScore seq1Val seq2Val m s g rest +
      (if seq1Val.getD (movesRows rest) nullChar
          = seq2Val.getD (movesCols rest) nullChar then m else s)
  | Move.left :: rest => movesScore seq1Val seq2Val m s g rest + g
  | Move.above :: rest => movesScore seq1Val seq2Val m s g rest + g

end CompareSequences

namespace CompareSequences

/-! ### Basic lemmas about the macros and `setCell` -/

theorem MAX_eq (x y : Int) : MAX x y = max x y := by
  unfold MAX
  split <;> omega

theorem ternary_max_eq (x y z : Int) : TERNARY_MAX x y z = max (max x y) z := by
  unfold TERNARY_MAX
  rw [MAX_eq, MAX_eq]

theorem left_le_ternary_max (x y z : Int) : x ≤ TERNARY_MAX x y z := by
  rw [ternary_max_eq]
  omega

theorem above_le_ternary_max (x y z : Int) : y ≤ TERNARY_MAX x y z := by
  rw [ternary_max_eq]
  omega

theorem diag_le_ternary_max (x y z : Int) : z ≤ TERNARY_MAX x y z := by
  rw [ternary_max_eq]
  omega

theorem ternary_max_cases (x y z : Int) :
    TERNARY_MAX x y z = x ∨ TERNARY_MAX x y z = y ∨ TERNARY_MAX x y z = z := by
  rw [ternary_max_eq]
  rcases max_cases (max x y) z with ⟨h1, _⟩ | ⟨h1, _⟩
  · rcases max_cases x y with ⟨h2, _⟩ | ⟨h2, _⟩
    · exact Or.inl (by omega)
    · exact Or.inr (Or.inl (by omega))
  · exact Or.inr (Or.inr h1)

theorem setCell_score (l a d : Int) (dc lc ac : Nat × Nat) :
    (setCell l a d dc lc ac).score = TERNARY_MAX l a d := rfl

theorem setCell_sourceChar (l a d : Int) (dc lc ac : Nat × Nat) :
    (setCell l a d dc lc ac).sourceChar =
      if TERNARY_MAX l a d = d then 'D'
      else if TERNARY_MAX l a d = l then 'L'
      else if TERNARY_MAX l a d = a then 'A'
      else nullChar := by
  unfold setCell
  dsimp only
  split_ifs <;> rfl

theorem setCell_sourceCell (l a d : Int) (dc lc ac : Nat × Nat) :
    (setCell l a d dc lc ac).sourceCell =
      if TERNARY_MAX l a d = d then some dc
      else if TERNARY_MAX l a d = l then some lc
      else if TERNARY_MAX l a d = a then some ac
      else none := by
  unfold setCell
  dsimp only
  split_ifs <;> rfl

/-! ### The filled table: border values and the interior recurrence -/

theorem fillTable_zero_zero (seq1Val seq2Val : List Char) (m s g : Int) :
    fillTable seq1Val seq2Val m s g 0 0 =
      { sourceCell := none, sourceChar := nullChar, score := 0 } := rfl

theorem fillTable_row0 (seq1Val seq2Val : List Char) (m s g : Int) (c : Nat) :
    fillTable seq1Val seq2Val m s g 0 (c + 1) =
      { sourceCell := none, sourceChar := nullChar, score := ((c : Int) + 1) * g } := rfl

theorem fillTable_col0 (seq1Val seq2Val : List Char) (m s g : Int) (r : Nat) :
    fillTable seq1Val seq2Val m s g (r + 1) 0 =
      { sourceCell := none, sourceChar := nullChar, score := ((r : Int) + 1) * g } := rfl

theorem fillTable_interior (seq1Val seq2Val : List Char) (m s g : Int) (r c : Nat) :
    fillTable seq1Val seq2Val m s g (r + 1) (c + 1) =
      setCell ((fillTable seq1Val seq2Val m s g (r + 1) c).score + g)
              ((fillTable seq1Val seq2Val m s g r (c + 1)).score + g)
              ((fillTable seq1Val seq2Val m s g r c).score +
                (if seq1Val.getD r nullChar = seq2Val.getD c nullChar then m else s))
              (r, c) (r + 1, c) (r, c + 1) := rfl

theorem fillTable_row0_score (seq1Val seq2Val : List Char) (m s g : Int) (c : Nat) :
    (fillTable seq1Val seq2Val m s g 0 c).score = (c : Int) * g := by
  cases c with
  | zero => simp [fillTable_zero_zero]
  | succ c => rw [fillTable_row0]; push_cast; ring

theorem fillTable_col0_score (seq1Val seq2Val : List Char) (m s g : Int) (r : Nat) :
    (fillTable seq1Val seq2Val m s g r 0).score = (r : Int) * g := by
  cases r with
  | zero => simp [fillTable_zero_zero]
  | succ r => rw [fillTable_col0]; push_cast; ring

/-- Every stored source link points at one of the three neighbouring cells, so
it strictly decreases the coordinate sum: the backtrace chain is finite and
any fuel above the starting `r + c` lets `calAlignmentLoop` run the whole
`while` loop of `calAlignment`. -/
theorem sourceCell_decreases (seq1Val seq2Val : List Char) (m s g : Int)
    (r c r2 c2 : Nat)
    (h : (fillTable seq1Val seq2Val m s g r c).sourceCell = some (r2, c2)) :
    r2 + c2 < r + c := by
  match r, c with
  | 0, 0 => rw [fillTable_zero_zero] at h; cases h
  | 0, c + 1 => rw [fillTable_row0] at h; cases h
  | r + 1, 0 => rw [fillTable_col0] at h; cases h
  | r + 1, c + 1 =>
    rw [fillTable_interior, setCell_sourceCell] at h
    split_ifs at h <;> cases h <;> omega

end CompareSequences

namespace CompareSequences

/-! ### Lengths of the reconstructed strings -/

theorem analyzeSourceChar_len_eq (sourceChar : Char) (seq1Val seq2Val : List Char)
    (i j : Nat) :
    (analyzeSourceChar sourceChar seq1Val seq2Val i j).1.length =
      (analyzeSourceChar sourceChar seq1Val seq2Val i j).2.1.length := by
  unfold analyzeSourceChar
  split_ifs <;> rfl

theorem calAlignmentLoop_len_eq (seq1Val seq2Val : List Char) (m s g : Int) :
    ∀ fuel r c i j,
      (calAlignmentLoop seq1Val seq2Val m s g fuel r c i j).1.length =
        (calAlignmentLoop seq1Val seq2Val m s g fuel r c i j).2.length := by
  intro fuel
  induction fuel with
  | zero => intro r c i j; rfl
  | succ fuel ih =>
    intro r c i j
    cases hsrc : (fillTable seq1Val seq2Val m s g r c).sourceCell with
    | none =>
      simp only [calAlignmentLoop, hsrc]
      exact analyzeSourceChar_len_eq _ _ _ _ _
    | some rc =>
      obtain ⟨r2, c2⟩ := rc
      simp only [calAlignmentLoop, hsrc, List.length_append]
      rw [ih, analyzeSourceChar_len_eq]

end CompareSequences

namespace CompareSequences

/-! ### Optimality of the dynamic-programming score (spec side of C1) -/

/-- Upper bound: every global alignment consuming `movesRows mv` characters of
the first sequence and `movesCols mv` of the second scores at most the table
entry at those coordinates. -/
theorem movesScore_le (seq1Val seq2Val : List Char) (m s g : Int) :
    ∀ mv : List Move,
      movesScore seq1Val seq2Val m s g mv ≤
        (fillTable seq1Val seq2Val m s g (movesRows mv) (movesCols mv)).score := by
  intro mv
  induction mv with
  | nil => exact le_of_eq rfl
  | cons head rest ih =>
    cases head with
    | diag =>
      simp only [movesScore, movesRows, movesCols]
      rw [fillTable_interior, setCell_score]
      exact le_trans (add_le_add_right ih _) (diag_le_ternary_max _ _ _)
    | left =>
      simp only [movesScore, movesRows, movesCols]
      cases hI : movesRows rest with
      | zero =>
        rw [hI] at ih
        rw [fillTable_row0_score] at ih
        rw [fillTable_row0_score]
        have hexp : ((movesCols rest + 1 : Nat) : Int) * g
            = (movesCols rest : Int) * g + g := by push_cast; ring
        rw [hexp]
        exact add_le_add_right ih g
      | succ i =>
        rw [hI] at ih
        rw [fillTable_interior, setCell_score]
        exact le_trans (add_le_add_right ih _) (left_le_ternary_max _ _ _)
    | above =>
      simp only [movesScore, movesRows, movesCols]
      cases hJ : movesCols rest with
      | zero =>
        rw [hJ] at ih
        rw [fillTable_col0_score] at ih
        rw [fillTable_col0_score]
        have hexp : ((movesRows rest + 1 : Nat) : Int) * g
            = (movesRows rest : Int) * g + g := by push_cast; ring
        rw [hexp]
        exact add_le_add_right ih g
      | succ j =>
        rw [hJ] at ih
        rw [fillTable_interior, setCell_score]
        exact le_trans (add_le_add_right ih _) (above_le_ternary_max _ _ _)

/-- Achievability: for every table position there is a global alignment whose
score is exactly the table entry. -/
theorem exists_moves (seq1Val seq2Val : List Char) (m s g : Int) :
    ∀ i j : Nat, ∃ mv : List Move,
      movesRows mv = i ∧ movesCols mv = j ∧
        movesScore seq1Val seq2Val m s g mv =
          (fillTable seq1Val seq2Val m s g i j).score := by
  intro i
  induction i with
  | zero =>
    intro j
    induction j with
    | zero => exact ⟨[], rfl, rfl, rfl⟩
    | succ j ihj =>
      obtain ⟨mv, h1, h2, h3⟩ := ihj
      refine ⟨Move.left :: mv, by simpa [movesRows] using h1, by simp [movesCols, h2], ?_⟩
      simp only [movesScore]
      rw [h3, fillTable_row0_score, fillTable_row0_score]
      push_cast
      ring
  | succ i ih =>
    intro j
    induction j with
    | zero =>
      obtain ⟨mv, h1, h2, h3⟩ := ih 0
      refine ⟨Move.above :: mv, by simp [movesRows, h1], by simpa [movesCols] using h2, ?_⟩
      simp only [movesScore]
      rw [h3, fillTable_col0_score, fillTable_col0_score]
      push_cast
      ring
    | succ j ihj =>
      rcases ternary_max_cases
          ((fillTable seq1Val seq2Val m s g (i + 1) j).score + g)
          ((fillTable seq1Val seq2Val m s g i (j + 1)).score + g)
          ((fillTable seq1Val seq2Val m s g i j).score +
            (if seq1Val.getD i nullChar = seq2Val.getD j nullChar then m else s))
          with hmax | hmax | hmax
      · obtain ⟨mv, h1, h2, h3⟩ := ihj
        refine ⟨Move.left :: mv, by simp [movesRows, h1], by simp [movesCols, h2], ?_⟩
        simp only [movesScore]
        rw [fillTable_interior, setCell_score, hmax, h3]
      · obtain ⟨mv, h1, h2, h3⟩ := ih (j + 1)
        refine ⟨Move.above :: mv, by simp [movesRows, h1], by simpa [movesCols] using h2, ?_⟩
        simp only [movesScore]
        rw [fillTable_interior, setCell_score, hmax, h3]
      · obtain ⟨mv, h1, h2, h3⟩ := ih j
        refine ⟨Move.diag :: mv, by simp [movesRows, h1], by simp [movesCols, h2], ?_⟩
        simp only [movesScore]
        rw [h1, h2, h3, fillTable_interior, setCell_score, hmax]

/-! ### Symmetry of the score table (C8) -/

theorem fillTable_score_symm (seq1Val seq2Val : List Char) (m s g : Int) :
    ∀ i j : Nat,
      (fillTable seq1Val seq2Val m s g i j).score =
        (fillTable seq2Val seq1Val m s g j i).score := by
  intro i
  induction i with
  | zero =>
    intro j
    rw [fillTable_row0_score, fillTable_col0_score]
  | succ i ih =>
    intro j
    induction j with
    | zero => rw [fillTable_col0_score, fillTable_row0_score]
    | succ j ihj =>
      rw [fillTable_interior, setCell_score, fillTable_interior, setCell_score]
      rw [ihj, ih (j + 1), ih j]
      have hif : (if seq1Val.getD i nullChar = seq2Val.getD j nullChar then m else s)
          = (if seq2Val.getD j nullChar = seq1Val.getD i nullChar then m else s) := by
        by_cases h : seq1Val.getD i nullChar = seq2Val.getD j nullChar
        · rw [if_pos h, if_pos h.symm]
        · rw [if_neg h, if_neg (fun hh => h hh.symm)]
      rw [hif]
      rw [ternary_max_eq, ternary_max_eq]
      omega

end CompareSequences

namespace CompareSequences

/-! ### Claim theorems -/

/-- C1: for sequences of length at least 1 and any signed integer parameters,
the bottom-right cell's score after the table is filled is the optimal global
alignment score — it bounds the score of every global alignment of the two
sequences from above and is attained by one — and `compareScore`, the value
`compareSequences` reports to the caller, is exactly that bottom-right table
entry. -/
theorem claim1_score_optimal (seq1Val seq2Val : List Char) (m s g : Int)
    (_hm : 1 ≤ seq1Val.length) (_hn : 1 ≤ seq2Val.length) :
    (∀ mv : List Move,
        movesRows mv = seq1Val.length → movesCols mv = seq2Val.length →
        movesScore seq1Val seq2Val m s g mv ≤ compareScore seq1Val seq2Val m s g) ∧
    (∃ mv : List Move,
        movesRows mv = seq1Val.length ∧ movesCols mv = seq2Val.length ∧
        movesScore seq1Val seq2Val m s g mv = compareScore seq1Val seq2Val m s g) ∧
    compareScore seq1Val seq2Val m s g =
      (fillTable seq1Val seq2Val m s g seq1Val.length seq2Val.length).score := by
  refine ⟨?_, ?_, rfl⟩
  · intro mv h1 h2
    have h := movesScore_le seq1Val seq2Val m s g mv
    rw [h1, h2] at h
    exact h
  · exact exists_moves seq1Val seq2Val m s g seq1Val.length seq2Val.length

/-- Witness for C1 at A = "A", B = "A", M = 1, S = -1, G = -1. -/
theorem claim1_score_optimal_witness :
    (1 ≤ (['A'] : List Char).length) ∧
    ((∀ mv : List Move,
        movesRows mv = (['A'] : List Char).length →
        movesCols mv = (['A'] : List Char).length →
        movesScore ['A'] ['A'] 1 (-1) (-1) mv ≤ compareScore ['A'] ['A'] 1 (-1) (-1)) ∧
     (∃ mv : List Move,
        movesRows mv = (['A'] : List Char).length ∧
        movesCols mv = (['A'] : List Char).length ∧
        movesScore ['A'] ['A'] 1 (-1) (-1) mv = compareScore ['A'] ['A'] 1 (-1) (-1)) ∧
     compareScore ['A'] ['A'] 1 (-1) (-1) =
       (fillTable ['A'] ['A'] 1 (-1) (-1)
         (['A'] : List Char).length (['A'] : List Char).length).score) :=
  ⟨by decide, claim1_score_optimal ['A'] ['A'] 1 (-1) (-1) (by decide) (by decide)⟩

/-- C5: for every interior cell (row and column between 1 and the respective
sequence length) the recorded origin tag is chosen by the exact tie-break
chain of `setCell`: `'D'` when the three-way maximum equals the diagonal
candidate, otherwise `'L'` when it equals the left candidate, otherwise
`'A'` — so Diagonal is preferred to FromLeft, which is preferred to
FromAbove, on ties. -/
theorem claim5_tie_break (seq1Val seq2Val : List Char) (m s g : Int) (i j : Nat)
    (hi : 1 ≤ i) (hj : 1 ≤ j)
    (him : i ≤ seq1Val.length) (hjn : j ≤ seq2Val.length) :
    (fillTable seq1Val seq2Val m s g i j).sourceChar =
      (if TERNARY_MAX ((fillTable seq1Val seq2Val m s g i (j - 1)).score + g)
                      ((fillTable seq1Val seq2Val m s g (i - 1) j).score + g)
                      ((fillTable seq1Val seq2Val m s g (i - 1) (j - 1)).score +
                        (if seq1Val.getD (i - 1) nullChar
                            = seq2Val.getD (j - 1) nullChar then m else s))
          = (fillTable seq1Val seq2Val m s g (i - 1) (j - 1)).score +
              (if seq1Val.getD (i - 1) nullChar
                  = seq2Val.getD (j - 1) nullChar then m else s) then 'D'
       else if TERNARY_MAX ((fillTable seq1Val seq2Val m s g i (j - 1)).score + g)
                      ((fillTable seq1Val seq2Val m s g (i - 1) j).score + g)
                      ((fillTable seq1Val seq2Val m s g (i - 1) (j - 1)).score +
                        (if seq1Val.getD (i - 1) nullChar
                            = seq2Val.getD (j - 1) nullChar then m else s))
          = (fillTable seq1Val seq2Val m s g i (j - 1)).score + g then 'L'
       else 'A') := by
  obtain ⟨r, rfl⟩ : ∃ r, i = r + 1 := ⟨i - 1, by omega⟩
  obtain ⟨c, rfl⟩ : ∃ c, j = c + 1 := ⟨j - 1, by omega⟩
  simp only [Nat.add_sub_cancel]
  rw [fillTable_interior, setCell_sourceChar]
  generalize (if seq1Val.getD r nullChar = seq2Val.getD c nullChar then m else s) = t
  split_ifs with h1 h2 h3
  · rfl
  · rfl
  · rfl
  · exfalso
    rw [ternary_max_eq] at h1 h2 h3
    omega

/-- Witness for C5 at A = "A", B = "B", M = 1, S = -1, G = -1, cell (1,1). -/
theorem claim5_tie_break_witness :
    (1 ≤ 1) ∧ (1 ≤ 1) ∧ (1 ≤ (['A'] : List Char).length) ∧
    (1 ≤ (['B'] : List Char).length) ∧
    ((fillTable ['A'] ['B'] 1 (-1) (-1) 1 1).sourceChar =
      (if TERNARY_MAX ((fillTable ['A'] ['B'] 1 (-1) (-1) 1 0).score + (-1))
                      ((fillTable ['A'] ['B'] 1 (-1) (-1) 0 1).score + (-1))
                      ((fillTable ['A'] ['B'] 1 (-1) (-1) 0 0).score +
                        (if (['A'] : List Char).getD 0 nullChar
                            = (['B'] : List Char).getD 0 nullChar then 1 else -1))
          = (fillTable ['A'] ['B'] 1 (-1) (-1) 0 0).score +
              (if (['A'] : List Char).getD 0 nullChar
                  = (['B'] : List Char).getD 0 nullChar then 1 else -1) then 'D'
       else if TERNARY_MAX ((fillTable ['A'] ['B'] 1 (-1) (-1) 1 0).score + (-1))
                      ((fillTable ['A'] ['B'] 1 (-1) (-1) 0 1).score + (-1))
                      ((fillTable ['A'] ['B'] 1 (-1) (-1) 0 0).score +
                        (if (['A'] : List Char).getD 0 nullChar
                            = (['B'] : List Char).getD 0 nullChar then 1 else -1))
          = (fillTable ['A'] ['B'] 1 (-1) (-1) 1 0).score + (-1) then 'L'
       else 'A')) :=
  ⟨by decide, by decide, by decide, by decide,
    claim5_tie_break ['A'] ['B'] 1 (-1) (-1) 1 1
      (by decide) (by decide) (by decide) (by decide)⟩

/-- C8: the computed alignment score is symmetric — swapping the two
sequences leaves the reported score unchanged. -/
theorem claim8_score_symmetric (seq1Val seq2Val : List Char) (m s g : Int) :
    compareScore seq1Val seq2Val m s g = compareScore seq2Val seq1Val m s g :=
  fillTable_score_symm seq1Val seq2Val m s g seq1Val.length seq2Val.length

/-- C10: at every interior cell (row and column at least 1) the three-way
maximum equals at least one of the left, above and diagonal candidates, so
the branch chain of `setCell` always records a source cell and a source tag
in {'D', 'L', 'A'}; the fall-through that would leave the source `NULL` and
the tag 0 is unreachable for interior cells. -/
theorem claim10_interior_source_assigned (seq1Val seq2Val : List Char)
    (m s g : Int) (r c : Nat) :
    (TERNARY_MAX ((fillTable seq1Val seq2Val m s g (r + 1) c).score + g)
                 ((fillTable seq1Val seq2Val m s g r (c + 1)).score + g)
                 ((fillTable seq1Val seq2Val m s g r c).score +
                   (if seq1Val.getD r nullChar = seq2Val.getD c nullChar then m else s))
        = (fillTable seq1Val seq2Val m s g (r + 1) c).score + g ∨
     TERNARY_MAX ((fillTable seq1Val seq2Val m s g (r + 1) c).score + g)
                 ((fillTable seq1Val seq2Val m s g r (c + 1)).score + g)
                 ((fillTable seq1Val seq2Val m s g r c).score +
                   (if seq1Val.getD r nullChar = seq2Val.getD c nullChar then m else s))
        = (fillTable seq1Val seq2Val m s g r (c + 1)).score + g ∨
     TERNARY_MAX ((fillTable seq1Val seq2Val m s g (r + 1) c).score + g)
                 ((fillTable seq1Val seq2Val m s g r (c + 1)).score + g)
                 ((fillTable seq1Val seq2Val m s g r c).score +
                   (if seq1Val.getD r nullChar = seq2Val.getD c nullChar then m else s))
        = (fillTable seq1Val seq2Val m s g r c).score +
            (if seq1Val.getD r nullChar = seq2Val.getD c nullChar then m else s)) ∧
    ((fillTable seq1Val seq2Val m s g (r + 1) (c + 1)).sourceChar = 'D' ∨
     (fillTable seq1Val seq2Val m s g (r + 1) (c + 1)).sourceChar = 'L' ∨
     (fillTable seq1Val seq2Val m s g (r + 1) (c + 1)).sourceChar = 'A') ∧
    (fillTable seq1Val seq2Val m s g (r + 1) (c + 1)).sourceCell ≠ none := by
  refine ⟨ternary_max_cases _ _ _, ?_, ?_⟩
  · rw [fillTable_interior, setCell_sourceChar]
    generalize (if seq1Val.getD r nullChar = seq2Val.getD c nullChar then m else s) = t
    split_ifs with h1 h2 h3
    · exact Or.inl rfl
    · exact Or.inr (Or.inl rfl)
    · exact Or.inr (Or.inr rfl)
    · exfalso
      rw [ternary_max_eq] at h1 h2 h3
      omega
  · rw [fillTable_interior, setCell_sourceCell]
    generalize (if seq1Val.getD r nullChar = seq2Val.getD c nullChar then m else s) = t
    split_ifs with h1 h2 h3
    · exact Option.some_ne_none _
    · exact Option.some_ne_none _
    · exact Option.some_ne_none _
    · exfalso
      rw [ternary_max_eq] at h1 h2 h3
      omega

/-- C7: the two reconstructed strings have equal length; the equality holds
after every iteration of the backtrace loop (any fuel, table position and
string indices), and a step whose origin tag is `'D'`, `'L'` or `'A'` appends
exactly one character to each of the two strings. -/
theorem claim7_equal_length (seq1Val seq2Val : List Char) (m s g : Int) :
    ((calAlignment seq1Val seq2Val m s g).1.length =
      (calAlignment seq1Val seq2Val m s g).2.length) ∧
    (∀ fuel r c i j,
      (calAlignmentLoop seq1Val seq2Val m s g fuel r c i j).1.length =
        (calAlignmentLoop seq1Val seq2Val m s g fuel r c i j).2.length) ∧
    (∀ i j, (analyzeSourceChar 'D' seq1Val seq2Val i j).1.length = 1 ∧
            (analyzeSourceChar 'D' seq1Val seq2Val i j).2.1.length = 1) ∧
    (∀ i j, (analyzeSourceChar 'L' seq1Val seq2Val i j).1.length = 1 ∧
            (analyzeSourceChar 'L' seq1Val seq2Val i j).2.1.length = 1) ∧
    (∀ i j, (analyzeSourceChar 'A' seq1Val seq2Val i j).1.length = 1 ∧
            (analyzeSourceChar 'A' seq1Val seq2Val i j).2.1.length = 1) := by
  refine ⟨calAlignmentLoop_len_eq seq1Val seq2Val m s g _ _ _ _ _,
          calAlignmentLoop_len_eq seq1Val seq2Val m s g, ?_, ?_, ?_⟩
  all_goals
    intro i j
    constructor <;> simp [analyzeSourceChar, SPACE_CHAR]

/-- C2 (observed behaviour of the code): at A = "AA", B = "A", M = 2, S = -1,
G = -2 the computed score is 0 as claimed, but the backtrace stops at border
cell (1,0), which `initializeTable` left with no origin, and the reconstructed
pair is "A" / "A" rather than the claimed "AA" / "-A". -/
theorem claim2_code_eval :
    compareScore ['A', 'A'] ['A'] 2 (-1) (-2) = 0 ∧
    calAlignment ['A', 'A'] ['A'] 2 (-1) (-2) = (['A'], ['A']) ∧
    ((['A'], ['A']) : List Char × List Char) ≠ (['A', 'A'], ['-', 'A']) := by
  exact ⟨by decide, by decide, by decide⟩

/-- C3 (observed behaviour of the code): after initialization the first-column
and first-row cells carry the claimed scores `i·G` and `j·G`, but their origin
is `NULL` with tag 0 — not FromAbove (`'A'`) or FromLeft (`'L'`) as the claim
states. -/
theorem claim3_init_eval :
    (fillTable ['A', 'A'] ['A'] 2 (-1) (-2) 0 0
      = { sourceCell := none, sourceChar := nullChar, score := 0 }) ∧
    (fillTable ['A', 'A'] ['A'] 2 (-1) (-2) 1 0
      = { sourceCell := none, sourceChar := nullChar, score := -2 }) ∧
    (fillTable ['A', 'A'] ['A'] 2 (-1) (-2) 2 0
      = { sourceCell := none, sourceChar := nullChar, score := -4 }) ∧
    (fillTable ['A', 'A'] ['A'] 2 (-1) (-2) 0 1
      = { sourceCell := none, sourceChar := nullChar, score := -2 }) ∧
    nullChar ≠ 'A' ∧ nullChar ≠ 'L' := by decide

/-- C4 (observed behaviour of the code): at A = "AA", B = "A", M = 2, S = -1,
G = -2 the backtrace from cell (2,1) follows its origin to cell (1,0) and
stops there because that cell has no origin; (1,0) is not (0,0), and the
walk performed no FromLeft step, yet each output string received 1 character
while the claim's count m + (number of FromLeft steps) is 2. -/
theorem claim4_backtrace_eval :
    (fillTable ['A', 'A'] ['A'] 2 (-1) (-2) 2 1).sourceCell = some (1, 0) ∧
    (fillTable ['A', 'A'] ['A'] 2 (-1) (-2) 1 0).sourceCell = none ∧
    ((1, 0) : Nat × Nat) ≠ (0, 0) ∧
    calAlignment ['A', 'A'] ['A'] 2 (-1) (-2) = (['A'], ['A']) ∧
    (calAlignment ['A', 'A'] ['A'] 2 (-1) (-2)).1.length ≠
      (['A', 'A'] : List Char).length := by decide

/-- C6 (observed behaviour of the code): at A = "AA", B = "A", M = 2, S = -1,
G = -2 removing the gap characters from the first reconstructed string yields
"A", not the first sequence "AA". -/
theorem claim6_gap_removal_eval :
    (calAlignment ['A', 'A'] ['A'] 2 (-1) (-2)).1.filter
        (fun ch => ch != SPACE_CHAR) = ['A'] ∧
    (['A'] : List Char) ≠ ['A', 'A'] := by decide

/-- C9 (observed behaviour of the code): `initializeSeq` never initializes
`seqLen` (line 76 assigns `seqVal = 0` a second time instead of `seqLen = 0`),
so the field keeps the indeterminate value of the fresh allocation; with
garbage value 5 a sequence whose value is then set to "A" has `seqLen = 6`
while its stored string has length 1. -/
theorem claim9_seqlen_eval :
    (setSeqVal (initializeSeq 5) ['A']).seqLen = 6 ∧
    (setSeqVal (initializeSeq 5) ['A']).seqVal = some ['A'] ∧
    Option.map List.length (setSeqVal (initializeSeq 5) ['A']).seqVal = some 1 ∧
    (6 : Nat) ≠ 1 := by decide

end CompareSequences
